import Mathlib

/-!
Verification of the inverted-index core of the repository: column inversion,
posting writers, merge/sort/generate, the term-meta codec, the posting
iterator, the column-length update jobs, the posting-writer provider of the
unit-test fixture, and the index statements of `Table`.

The executable model below is a shallow embedding.  The components whose
implementation is not part of the source tree (only their unit tests and
callers are) are modelled from the specification; each such definition says
so in its doc comment.  Everything else is translated directly from the
source files.
-/

set_option maxRecDepth 1000000
set_option maxHeartbeats 16000000

/-! ## Analyzer (tokenizer) -/

/-- Modelled from the spec: the `standard` Analyzer is consumed through
`Tokenize(text) -> ordered sequence of (term, position)`; terms are normalized
(lower-cased) tokens.  A token character is an ASCII letter or digit. -/
def isTokenChar (c : Char) : Bool :=
  (97 ≤ c.toNat && c.toNat ≤ 122) || (65 ≤ c.toNat && c.toNat ≤ 90) ||
    (48 ≤ c.toNat && c.toNat ≤ 57)

/-- Modelled from the spec: term normalization lower-cases ASCII letters. -/
def lowerChar (c : Char) : Char :=
  if 65 ≤ c.toNat && c.toNat ≤ 90 then Char.ofNat (c.toNat + 32) else c

/-- Close the token currently being accumulated (if any). -/
def flushTok (cur : List Char) (acc : List String) : List String :=
  if cur.isEmpty then acc else acc ++ [String.mk cur.reverse]

/-- Scan the character stream, splitting at non-token characters. -/
def tokenizeAux : List Char → List Char → List String → List String
  | [], cur, acc => flushTok cur acc
  | c :: cs, cur, acc =>
      if isTokenChar c then tokenizeAux cs (lowerChar c :: cur) acc
      else tokenizeAux cs [] (flushTok cur acc)

/-- Modelled from the spec: `Tokenize(text)` of the consumed Analyzer; the
position of a term occurrence is its index in the token sequence. -/
def tokenize (s : String) : List String := tokenizeAux s.data [] []

/-! ## Term posting builder (PostingWriter) -/

/-- One posting entry: (document id, term frequency, ordered position list). -/
structure PostingEntry where
  doc_id : Nat
  tf : Nat
  positions : List Nat
deriving DecidableEq, Repr

/-- Error kinds of the build pass (spec section 7). -/
inductive BuildErr where
  | OutOfOrderDocument
  | AlreadyFinalized
deriving DecidableEq, Repr

/-- Modelled from the spec: a Term Posting Builder accumulates
(document id, term frequency, position list) triples for one term and can be
sealed by `Finalize`. -/
structure PostingWriter where
  entries : List PostingEntry := []
  finalized : Bool := false
deriving DecidableEq, Repr

/-- Document id of the most recently appended entry, if any. -/
def PostingWriter.lastDocId (w : PostingWriter) : Option Nat :=
  w.entries.getLast?.map PostingEntry.doc_id

/-- Modelled from the spec: `AppendDocument(document_id, term_frequency,
positions)` extends the posting stream; fails with `OutOfOrderDocument` if
`document_id` is not strictly greater than the previous appended id, and with
`AlreadyFinalized` after `Finalize`. -/
def PostingWriter.AppendDocument (w : PostingWriter) (doc_id tf : Nat)
    (positions : List Nat) : Except BuildErr PostingWriter :=
  if w.finalized then .error .AlreadyFinalized
  else
    match w.lastDocId with
    | some last =>
        if last < doc_id then
          .ok { w with entries := w.entries ++ [⟨doc_id, tf, positions⟩] }
        else .error .OutOfOrderDocument
    | none => .ok { w with entries := [⟨doc_id, tf, positions⟩] }

/-- Modelled from the spec: `DocumentFrequency()` (`GetDF` in the test) is the
number of documents appended so far. -/
def PostingWriter.GetDF (w : PostingWriter) : Nat := w.entries.length

/-- Modelled from the spec: `Finalize()` seals the builder for iteration. -/
def PostingWriter.Finalize (w : PostingWriter) : PostingWriter :=
  { w with finalized := true }

/-! ## Column inverter -/

/-- Modelled from the spec: a Column Inverter owns a term -> accumulated
posting-entry map (in first-sight term order) and the per-document token
counts of the rows it covered. -/
structure ColumnInverter where
  terms : List (String × List PostingEntry) := []
  lengths : List Nat := []
deriving DecidableEq, Repr

/-- Append entries for a term to the map, creating the term on first sight. -/
def addEntries : List (String × List PostingEntry) → String → List PostingEntry →
    List (String × List PostingEntry)
  | [], t, es => [(t, es)]
  | (t', es') :: rest, t, es =>
      if t' = t then (t', es' ++ es) :: rest else (t', es') :: addEntries rest t es

/-- Occurrence offsets of a term inside one document's token sequence. -/
def termPositions (tokens : List String) (t : String) : List Nat :=
  (tokens.enum.filter (fun p => p.2 = t)).map Prod.fst

/-- The distinct terms of one document, in order of first occurrence. -/
def distinctTerms (tokens : List String) : List String :=
  tokens.foldl (fun acc t => if t ∈ acc then acc else acc ++ [t]) []

/-- Invert a single document: append one posting entry per distinct term,
whose term frequency is the occurrence count and whose positions are the
occurrence offsets; record the document's total token count. -/
def invertDoc (inv : ColumnInverter) (doc_id : Nat) (tokens : List String) :
    ColumnInverter :=
  { terms := (distinctTerms tokens).foldl
      (fun m t => addEntries m t
        [⟨doc_id, (termPositions tokens t).length, termPositions tokens t⟩])
      inv.terms
    lengths := inv.lengths ++ [tokens.length] }

/-- Modelled from the spec: `InvertColumn(column, start_row, row_count,
base_document_id)` tokenizes each value in `[start_row, start_row+row_count)`
and assigns document id `base_document_id + (row_index - start_row)`. -/
def ColumnInverter.InvertColumn (inv : ColumnInverter) (column : List String)
    (start_row row_count base_doc : Nat) : ColumnInverter :=
  (List.range row_count).foldl
    (fun acc i =>
      invertDoc acc (base_doc + i) (tokenize ((column.drop (start_row + i)).headD "")))
    inv

/-- Modelled from the spec: `Merge(other)` combines `other`'s term map into
this inverter's map; posting streams of shared terms are concatenated with
`other`'s document ids treated as already globally offset. -/
def ColumnInverter.Merge (inv other : ColumnInverter) : ColumnInverter :=
  { terms := other.terms.foldl (fun m p => addEntries m p.1 p.2) inv.terms
    lengths := inv.lengths ++ other.lengths }

/-- Lexicographic (byte-wise) order on the character lists of two terms. -/
def charListLt : List Char → List Char → Bool
  | _, [] => false
  | [], _ :: _ => true
  | a :: as, b :: bs =>
      if a.toNat < b.toNat then true
      else if b.toNat < a.toNat then false
      else charListLt as bs

/-- Lexicographic order on terms. -/
def termLt (a b : String) : Bool := charListLt a.data b.data

/-- Insert one (term, entries) pair into a term-sorted list. -/
def insertSortedTerm (x : String × List PostingEntry) :
    List (String × List PostingEntry) → List (String × List PostingEntry)
  | [] => [x]
  | y :: rest =>
      if termLt x.1 y.1 then x :: y :: rest else y :: insertSortedTerm x rest

/-- Modelled from the spec: `Sort()` produces a deterministic,
lexicographically ordered sequence of (term, builder) entries. -/
def ColumnInverter.Sort (inv : ColumnInverter) : ColumnInverter :=
  { inv with terms := inv.terms.foldl (fun acc p => insertSortedTerm p acc) [] }

/-- Build one term's posting writer by appending its accumulated entries in
order and finalizing. -/
def buildWriter (es : List PostingEntry) : Except BuildErr PostingWriter :=
  Except.map PostingWriter.Finalize
    (es.foldlM (fun w e => PostingWriter.AppendDocument w e.doc_id e.tf e.positions)
      ({} : PostingWriter))

/-- Modelled from the spec: `GeneratePosting()` finalizes every builder;
either all builders are finalized or the whole pass fails. -/
def ColumnInverter.GeneratePosting (inv : ColumnInverter) :
    Except BuildErr (List (String × PostingWriter)) :=
  inv.terms.mapM (fun p => Except.map (fun w => (p.1, w)) (buildWriter p.2))

/-- Assoc-list lookup by term (the test fixture's `postings_.find(term)`). -/
def lookupTerm {α : Type} : List (String × α) → String → Option α
  | [], _ => none
  | (t', a) :: rest, t => if t' = t then some a else lookupTerm rest t

/-! ## Posting iterator -/

/-- The invalid document-id sentinel (`INVALID_ROWID`, the maximal u64). -/
def INVALID_ROWID : Nat := 2 ^ 64 - 1

/-- The invalid position sentinel (`INVALID_POSITION`, the maximal u32). -/
def INVALID_POSITION : Nat := 2 ^ 32 - 1

/-- Modelled from the spec: the Posting Iterator's state is the not yet
visited posting entries, the remaining position list of the current document,
the current term frequency, and the `Exhausted` flag. -/
structure PostingIterator where
  upcoming : List PostingEntry
  cur_positions : List Nat
  cur_tf : Nat
  exhausted : Bool
deriving DecidableEq, Repr

/-- Initialize an iterator over one merged posting list. -/
def PostingIterator.Init (entries : List PostingEntry) : PostingIterator :=
  ⟨entries, [], 0, false⟩

/-- Modelled from the spec: `SeekDoc(target)` advances to the smallest not
yet visited document id `≥ target`; returns the invalid sentinel and becomes
`Exhausted` when none exists. -/
def PostingIterator.SeekDoc (it : PostingIterator) (target : Nat) :
    PostingIterator × Nat :=
  if it.exhausted then (it, INVALID_ROWID)
  else
    match it.upcoming.dropWhile (fun e => decide (e.doc_id < target)) with
    | e :: rest =>
        ({ it with upcoming := rest, cur_positions := e.positions, cur_tf := e.tf },
          e.doc_id)
    | [] =>
        ({ it with upcoming := [], cur_positions := [], exhausted := true },
          INVALID_ROWID)

/-- Modelled from the spec: `GetCurrentTF()` returns the term frequency
recorded for the current document. -/
def PostingIterator.GetCurrentTF (it : PostingIterator) : Nat := it.cur_tf

/-- Modelled from the spec: `SeekPosition(from_position)` advances the
within-document cursor to the smallest remaining recorded position
`≥ from_position`, or yields the invalid position sentinel. -/
def PostingIterator.SeekPosition (it : PostingIterator) (from_pos : Nat) :
    PostingIterator × Nat :=
  match it.cur_positions.dropWhile (fun p => decide (p < from_pos)) with
  | p :: rest => ({ it with cur_positions := rest }, p)
  | [] => ({ it with cur_positions := [] }, INVALID_POSITION)

/-- Results of a sequence of `SeekDoc` calls. -/
def runSeeks (it : PostingIterator) : List Nat → List Nat
  | [] => []
  | t :: ts =>
      let s := it.SeekDoc t
      s.2 :: runSeeks s.1 ts

/-- Repeatedly call `SeekPosition` with `from_position` = previous result + 1,
collecting the results, stopping at the sentinel (or when fuel runs out). -/
def seekPositionRun (it : PostingIterator) (from_pos : Nat) : Nat → List Nat
  | 0 => []
  | fuel + 1 =>
      let s := it.SeekPosition from_pos
      if s.2 = INVALID_POSITION then [INVALID_POSITION]
      else s.2 :: seekPositionRun s.1 (s.2 + 1) fuel

/-! ## Column length array and update jobs -/

/-- Write one value at index `i` of the shared column length array, growing
the array (zero filled) as needed. -/
def setAt (arr : List Nat) (i v : Nat) : List Nat :=
  if i < arr.length then arr.set i v
  else arr ++ List.replicate (i - arr.length) 0 ++ [v]

/-- Modelled from the spec: a `FullTextColumnLengthUpdateJob` with row count
`vals.length` and base offset `off` writes the per-document token counts
`vals` into the shared array at indices `[off, off + vals.length)`. -/
def writeSlice (arr : List Nat) (off : Nat) (vals : List Nat) : List Nat :=
  vals.enum.foldl (fun a p => setAt a (off + p.1) p.2) arr

/-! ## The five fixed test paragraphs and the test pipelines -/

/-- The five text paragraphs indexed by the `ColumnInverterTest.Invert`
unit test (documents 0 to 4). -/
def paragraphs : List String := [
  "A finite-state transducer (FST) is a finite-state machine with two memory tapes, following the terminology for Turing machines: an input tape and an output tape. This contrasts with an ordinary finite-state automaton, which has a single tape. An FST is a type of finite-state automaton (FSA) that maps between two sets of symbols.[1] An FST is more general than an FSA. An FSA defines a formal language by defining a set of accepted strings, while an FST defines a relation between sets of strings.",
  "An FST will read a set of strings on the input tape and generates a set of relations on the output tape. An FST can be thought of as a translator or relater between strings in a set.",
  "In morphological parsing, an example would be inputting a string of letters into the FST, the FST would then output a string of morphemes.",
  "An automaton can be said to recognize a string if we view the content of its tape as input. In other words, the automaton computes a function that maps strings into the set \x7b0,1\x7d. Alternatively, we can say that an automaton generates strings, which means viewing its tape as an output tape. On this view, the automaton generates a formal language, which is a set of strings. The two views of automata are equivalent: the function that the automaton computes is precisely the indicator function of the set of strings it generates. The class of languages generated by finite automata is known as the class of regular languages.",
  "The two tapes of a transducer are typically viewed as an input tape and an output tape. On this view, a transducer is said to transduce (i.e., translate) the contents of its input tape to its output tape, by accepting a string on its input tape and generating another string on its output tape. It may do so nondeterministically and it may produce more than one output for each input string. A transducer may also produce no output for a given input string, in which case it is said to reject the input. In general, a transducer computes a relation between two formal languages."
]

/-- The first inverter of the test: documents 0-2, base document id 0. -/
def inverter1 : ColumnInverter := ColumnInverter.InvertColumn {} paragraphs 0 3 0

/-- The second inverter of the test: documents 3-4, base document id 3. -/
def inverter2 : ColumnInverter := ColumnInverter.InvertColumn {} paragraphs 3 2 3

/-- The merged inverter (`inverter1.Merge(inverter2)`). -/
def mergedInverter : ColumnInverter := inverter1.Merge inverter2

/-- The split pipeline of the test: invert 0-2 and 3-4 separately, merge,
sort, generate postings. -/
def splitResult : Except BuildErr (List (String × PostingWriter)) :=
  mergedInverter.Sort.GeneratePosting

/-- A single inverter covering all five documents at base document id 0. -/
def singleInverter : ColumnInverter := ColumnInverter.InvertColumn {} paragraphs 0 5 0

/-- The single-inverter pipeline: invert all five documents, sort, generate. -/
def singleResult : Except BuildErr (List (String × PostingWriter)) :=
  singleInverter.Sort.GeneratePosting

/-- The posting generated for term `fst` by the single-inverter pipeline. -/
def fstPosting : Option PostingWriter :=
  splitResult.toOption.bind (fun l => lookupTerm l "fst")

/-- Per-term (document frequency, per-document term frequencies) table of a
generated posting set. -/
def dfTfTable (r : Except BuildErr (List (String × PostingWriter))) :
    Option (List (String × Nat × List Nat)) :=
  r.toOption.map (List.map (fun p => (p.1, p.2.GetDF, p.2.entries.map PostingEntry.tf)))

/-- The persisted column length array: job 1 writes the counts of documents
0-2 at offset 0, job 2 writes the counts of documents 3-4 at offset 3. -/
def columnLengthFinal : List Nat :=
  writeSlice (writeSlice [] 0 inverter1.lengths) 3 inverter2.lengths

/-! ## Claim theorems: end-to-end scenario -/

/-- C1: indexing the five fixed test paragraphs and calling `Sort()` and
`GeneratePosting()` yields, for term `fst`, a posting with document frequency
3, documents exactly [0, 1, 2] with term frequencies [4, 2, 2]; seeking with
a target greater than document 2 returns the invalid document-id sentinel. -/
theorem invert_end_to_end_fst :
    fstPosting.map PostingWriter.GetDF = some 3 ∧
    fstPosting.map (fun w => w.entries.map PostingEntry.doc_id) = some [0, 1, 2] ∧
    fstPosting.map (fun w => w.entries.map PostingEntry.tf) = some [4, 2, 2] ∧
    fstPosting.map (fun w => runSeeks (PostingIterator.Init w.entries) [0, 1, 2, 3]) =
      some [0, 1, 2, INVALID_ROWID] := by
  decide!

/-- C2: splitting the five documents into a first inverter over documents 0-2
(base id 0) and a second over documents 3-4 (base id 3), then merging,
sorting and generating postings, yields for every term the same document
frequency and per-document term frequencies as one inverter over all five. -/
theorem merge_equals_single_inverter : dfTfTable splitResult = dfTfTable singleResult := by
  decide!

/-- C8: after indexing the five documents split across two partitions whose
column-length update jobs write disjoint ranges (3 counts at offset 0 and 2
counts at offset 3), the persisted column length array has exactly 5 entries,
one per document in order, with no gaps and no overwritten entry. -/
theorem column_length_no_gaps :
    columnLengthFinal = paragraphs.map (fun p => (tokenize p).length) ∧
    columnLengthFinal.length = 5 := by
  decide!

/-! ## Term summary codec (TermMeta) -/

/-- Modelled from the spec: the per-term summary record: document frequency,
total term frequency, payload. -/
structure TermMeta where
  doc_freq : Nat
  total_tf : Nat
  payload : Nat
deriving DecidableEq, Repr

/-- Little-endian fixed-width (4 byte) encoding of one integer field. -/
def writeU32 (n : Nat) : List Nat :=
  [n % 256, n / 256 % 256, n / 256 ^ 2 % 256, n / 256 ^ 3 % 256]

/-- Modelled from the spec: `TermMetaDumper.Dump` writes document frequency,
total term frequency and the payload byte in a fixed-width binary layout to
the sequential writer (modelled as the produced byte list). -/
def TermMetaDumper.Dump (m : TermMeta) : List Nat :=
  writeU32 m.doc_freq ++ writeU32 m.total_tf ++ [m.payload % 256]

/-- Modelled from the spec: `TermMetaLoader.Load` reads the same layout back
from the sequential reader (modelled as the consumed byte list). -/
def TermMetaLoader.Load : List Nat → Option TermMeta
  | a0 :: a1 :: a2 :: a3 :: b0 :: b1 :: b2 :: b3 :: p :: _ =>
      some ⟨a0 + 256 * a1 + 256 ^ 2 * a2 + 256 ^ 3 * a3,
            b0 + 256 * b1 + 256 ^ 2 * b2 + 256 ^ 3 * b3, p⟩
  | _ => none

/-- C3: dumping a valid term summary and loading it back restores all three
fields (`Load(Dump(s)) == s`). -/
theorem termMeta_roundtrip (m : TermMeta) (h1 : m.doc_freq < 2 ^ 32)
    (h2 : m.total_tf < 2 ^ 32) (h3 : m.payload < 2 ^ 8) :
    TermMetaLoader.Load (TermMetaDumper.Dump m) = some m := by
  obtain ⟨df, tf, pl⟩ := m
  simp only [TermMetaDumper.Dump, writeU32, List.cons_append, List.nil_append,
    TermMetaLoader.Load, Option.some.injEq, TermMeta.mk.injEq] at *
  refine ⟨?_, ?_, ?_⟩ <;> omega

/-- Witness for C3 at the test's summary (1, 2, 3). -/
theorem termMeta_roundtrip_witness :
    TermMetaLoader.Load (TermMetaDumper.Dump ⟨1, 2, 3⟩) = some ⟨1, 2, 3⟩ :=
  termMeta_roundtrip ⟨1, 2, 3⟩ (by decide) (by decide) (by decide)

/-! ## Document frequency counts appends (C6) and order checking (C7) -/

/-- A sequence of `AppendDocument` calls: (document id, term frequency,
positions) per call. -/
def appendSequence (w : PostingWriter) (ds : List (Nat × Nat × List Nat)) :
    Except BuildErr PostingWriter :=
  ds.foldlM (fun w d => PostingWriter.AppendDocument w d.1 d.2.1 d.2.2) w

lemma getLast?_map_doc_id (es : List PostingEntry) :
    (es.map PostingEntry.doc_id).getLast? = es.getLast?.map PostingEntry.doc_id := by
  induction es with
  | nil => rfl
  | cons e es ih =>
      cases es with
      | nil => rfl
      | cons f fs => simpa using ih

lemma appendSequence_ok : ∀ (ds : List (Nat × Nat × List Nat)) (w : PostingWriter),
    w.finalized = false →
    List.Chain' (· < ·) (w.entries.map PostingEntry.doc_id ++ ds.map Prod.fst) →
    ∃ w', appendSequence w ds = .ok w' ∧ w'.finalized = false ∧
      w'.GetDF = w.GetDF + ds.length := by
  intro ds
  induction ds with
  | nil => exact fun w hfin _ => ⟨w, rfl, hfin, rfl⟩
  | cons d ds ih =>
      intro w hfin hchain
      have hstep : ∃ w₁, PostingWriter.AppendDocument w d.1 d.2.1 d.2.2 = .ok w₁ ∧
          w₁.finalized = false ∧
          w₁.entries = w.entries ++ [⟨d.1, d.2.1, d.2.2⟩] := by
        cases hl : w.lastDocId with
        | none =>
            have hnil : w.entries = [] := by
              rcases he : w.entries.getLast? with _ | e
              · exact List.getLast?_eq_none_iff.mp he
              · rw [PostingWriter.lastDocId, he] at hl; simp at hl
            refine ⟨{ entries := [⟨d.1, d.2.1, d.2.2⟩], finalized := false }, ?_, rfl,
              by rw [hnil]; rfl⟩
            simp [PostingWriter.AppendDocument, hfin, hl]
        | some last =>
            have hd : last < d.1 := by
              rw [List.chain'_append] at hchain
              refine hchain.2.2 last ?_ d.1 (by simp)
              rw [getLast?_map_doc_id]
              rw [PostingWriter.lastDocId] at hl
              exact hl
            refine ⟨{ entries := w.entries ++ [⟨d.1, d.2.1, d.2.2⟩], finalized := false },
              ?_, rfl, rfl⟩
            simp [PostingWriter.AppendDocument, hfin, hl, hd]
      obtain ⟨w₁, hok, hfin₁, hent⟩ := hstep
      have hchain₁ : List.Chain' (· < ·)
          (w₁.entries.map PostingEntry.doc_id ++ ds.map Prod.fst) := by
        rw [hent]
        simp only [List.map_append, List.map_cons, List.map_nil, List.append_assoc,
          List.cons_append, List.nil_append]
        simpa using hchain
      obtain ⟨w', hrun, hfin', hdf⟩ := ih w₁ hfin₁ hchain₁
      refine ⟨w', ?_, hfin', ?_⟩
      · rw [appendSequence, List.foldlM_cons, hok]
        exact hrun
      · rw [hdf, PostingWriter.GetDF, hent]
        simp [PostingWriter.GetDF]
        omega

/-- C6: for every valid sequence of `AppendDocument` calls with strictly
increasing document ids starting from a fresh builder, the appends all
succeed and `DocumentFrequency()` equals the number of calls made. -/
theorem getDF_counts_appends (ds : List (Nat × Nat × List Nat))
    (h : List.Chain' (· < ·) (ds.map Prod.fst)) :
    ∃ w', appendSequence {} ds = .ok w' ∧ w'.GetDF = ds.length := by
  obtain ⟨w', hok, -, hdf⟩ := appendSequence_ok ds {} rfl (by simpa using h)
  exact ⟨w', hok, by simpa [PostingWriter.GetDF] using hdf⟩

/-- Witness for C6: two appends with increasing ids give document frequency 2. -/
theorem getDF_counts_appends_witness :
    ∃ w', appendSequence {} [(1, 2, [0, 1]), (4, 1, [2])] = .ok w' ∧ w'.GetDF = 2 :=
  getDF_counts_appends [(1, 2, [0, 1]), (4, 1, [2])]
    (by simp [List.chain'_cons, List.chain'_singleton])

/-- C7: appending a document id that is not strictly greater than the
previously appended id fails with `OutOfOrderDocument`, and every successful
append preserves the strictly-increasing document id invariant. -/
theorem appendDocument_out_of_order (w : PostingWriter) (d tf : Nat) (ps : List Nat)
    (hfin : w.finalized = false) :
    (∀ last, w.lastDocId = some last → d ≤ last →
      w.AppendDocument d tf ps = .error .OutOfOrderDocument) ∧
    ∀ w', w.AppendDocument d tf ps = .ok w' →
      List.Chain' (· < ·) (w.entries.map PostingEntry.doc_id) →
      List.Chain' (· < ·) (w'.entries.map PostingEntry.doc_id) := by
  constructor
  · intro last hl hle
    rw [PostingWriter.AppendDocument, hfin]
    simp only [Bool.false_eq_true, if_false, hl]
    rw [if_neg (by omega)]
  · intro w' hok hchain
    cases hl : w.lastDocId with
    | none =>
        simp only [PostingWriter.AppendDocument, hfin, Bool.false_eq_true, if_false, hl,
          Except.ok.injEq] at hok
        rw [← hok]
        simp [List.chain'_singleton]
    | some last =>
        by_cases hd : last < d
        · simp only [PostingWriter.AppendDocument, hfin, Bool.false_eq_true, if_false, hl,
            hd, if_true, Except.ok.injEq] at hok
          rw [← hok]
          simp only [List.map_append, List.map_cons, List.map_nil]
          rw [List.chain'_append]
          refine ⟨hchain, List.chain'_singleton _, ?_⟩
          intro x hx y hy
          rw [getLast?_map_doc_id] at hx
          rw [PostingWriter.lastDocId] at hl
          rw [hl] at hx
          simp at hx hy
          omega
        · simp [PostingWriter.AppendDocument, hfin, hl, hd] at hok

/-- A concrete writer holding one entry with document id 5. -/
def demoWriter : PostingWriter := { entries := [⟨5, 1, [0]⟩] }

/-- Witness for C7: appending document id 5 again is rejected. -/
theorem appendDocument_out_of_order_witness :
    demoWriter.AppendDocument 5 1 [1] = .error .OutOfOrderDocument :=
  (appendDocument_out_of_order demoWriter 5 1 [1] rfl).1 5 rfl (by decide)

/-! ## The posting-writer provider of the test fixture (C9) -/

/-- The unit-test fixture state behind `GetOrAddPosting`: the shared
term -> posting-writer map of `ColumnInverterTest`, with each writer
identified by its creation index (object identity of the shared pointer). -/
structure InverterFixture where
  postings : List (String × Nat) := []
  created : Nat := 0
deriving DecidableEq, Repr

/-- `ColumnInverterTest::GetOrAddPosting`: return the posting writer already
registered for `term`, or create a new shared writer and register it. -/
def GetOrAddPosting (s : InverterFixture) (term : String) : InverterFixture × Nat :=
  match lookupTerm s.postings term with
  | some w => (s, w)
  | none =>
      ({ postings := s.postings ++ [(term, s.created)], created := s.created + 1 },
        s.created)

/-- Run a sequence of `GetOrAddPosting` calls against the fixture state. -/
def runGetOrAdd (s : InverterFixture) : List String → InverterFixture
  | [] => s
  | t :: ts => runGetOrAdd (GetOrAddPosting s t).1 ts

lemma lookupTerm_append_self {α : Type} (l : List (String × α)) (t : String) (v : α)
    (h : lookupTerm l t = none) : lookupTerm (l ++ [(t, v)]) t = some v := by
  induction l with
  | nil => simp [lookupTerm]
  | cons p rest ih =>
      rw [lookupTerm] at h
      by_cases hp : p.1 = t
      · rw [if_pos hp] at h; exact absurd h (by simp)
      · rw [if_neg hp] at h
        rw [List.cons_append, lookupTerm.eq_def]
        simpa [hp] using ih h

lemma lookupTerm_eq_none_iff {α : Type} (l : List (String × α)) (t : String) :
    lookupTerm l t = none ↔ t ∉ l.map Prod.fst := by
  induction l with
  | nil => simp [lookupTerm]
  | cons p rest ih =>
      rw [lookupTerm.eq_def]
      by_cases hp : p.1 = t
      · simp [hp]
      · simpa [hp, Ne.symm hp] using ih

lemma runGetOrAdd_keys : ∀ (ts : List String) (s : InverterFixture),
    (runGetOrAdd s ts).postings.map Prod.fst =
      ts.foldl (fun acc t => if t ∈ acc then acc else acc ++ [t])
        (s.postings.map Prod.fst) := by
  intro ts
  induction ts with
  | nil => intro s; rfl
  | cons t ts ih =>
      intro s
      rw [runGetOrAdd, List.foldl_cons]
      by_cases hmem : t ∈ s.postings.map Prod.fst
      · have hlook : ∃ w, lookupTerm s.postings t = some w := by
          rcases hl : lookupTerm s.postings t with _ | w
          · exact absurd ((lookupTerm_eq_none_iff _ _).mp hl) (not_not_intro hmem)
          · exact ⟨w, rfl⟩
        obtain ⟨w, hl⟩ := hlook
        rw [if_pos hmem, GetOrAddPosting, hl]
        exact ih s
      · have hl : lookupTerm s.postings t = none :=
          (lookupTerm_eq_none_iff _ _).mpr hmem
        rw [if_neg hmem, GetOrAddPosting, hl]
        have := ih ⟨s.postings ++ [(t, s.created)], s.created + 1⟩
        simpa using this

lemma runGetOrAdd_created : ∀ (ts : List String) (s : InverterFixture),
    s.created = s.postings.length →
    (runGetOrAdd s ts).created = (runGetOrAdd s ts).postings.length := by
  intro ts
  induction ts with
  | nil => exact fun s h => h
  | cons t ts ih =>
      intro s h
      rw [runGetOrAdd]
      rcases hl : lookupTerm s.postings t with _ | w
      · rw [GetOrAddPosting, hl]
        exact ih _ (by simpa using h)
      · rw [GetOrAddPosting, hl]
        exact ih _ h

/-- C9: the provider is idempotent: a second `GetOrAddPosting` with the same
term returns the same shared writer and leaves the map unchanged, and a run
starting from the empty fixture creates exactly one writer per distinct
term. -/
theorem getOrAddPosting_shared (s : InverterFixture) (t : String) (ts : List String) :
    (GetOrAddPosting (GetOrAddPosting s t).1 t).2 = (GetOrAddPosting s t).2 ∧
    (GetOrAddPosting (GetOrAddPosting s t).1 t).1 = (GetOrAddPosting s t).1 ∧
    (runGetOrAdd {} ts).created = (distinctTerms ts).length := by
  refine ⟨?_, ?_, ?_⟩
  · rcases hl : lookupTerm s.postings t with _ | w
    · have hsa := lookupTerm_append_self s.postings t s.created hl
      simp [GetOrAddPosting, hl, hsa]
    · simp [GetOrAddPosting, hl]
  · rcases hl : lookupTerm s.postings t with _ | w
    · have hsa := lookupTerm_append_self s.postings t s.created hl
      simp [GetOrAddPosting, hl, hsa]
    · simp [GetOrAddPosting, hl]
  · have hkeys := runGetOrAdd_keys ts {}
    have hcre := runGetOrAdd_created ts {} rfl
    rw [hcre, ← List.length_map _ Prod.fst, hkeys]
    rfl

/-! ## Table::CreateIndex and Table::DropIndex (C10) -/

/-- `CreateIndexOptions` as passed to `Table::CreateIndex`. -/
structure CreateIndexOptions where
  conflict_type : Nat := 0
deriving DecidableEq, Repr

/-- The `CreateIndexInfo` populated by `Table::CreateIndex`. -/
structure CreateIndexInfo where
  schema_name : String := ""
  table_name : String := ""
  index_name : String := ""
  column_names : List String := []
deriving DecidableEq, Repr

/-- A `CreateStatement`; `create_info` stays at its default unless a caller
attaches an info object. -/
structure CreateStatement where
  create_info : Option CreateIndexInfo := none
deriving DecidableEq, Repr

/-- The `DropIndexInfo` populated by `Table::DropIndex`. -/
structure DropIndexInfo where
  schema_name : String := ""
  table_name : String := ""
  index_name : String := ""
deriving DecidableEq, Repr

/-- A `DropStatement`; `drop_info` stays at its default unless a caller
attaches an info object. -/
structure DropStatement where
  drop_info : Option DropIndexInfo := none
deriving DecidableEq, Repr

/-- The response of `QueryContext::QueryStatement` (result table handle plus
optional error message). -/
structure QueryResponse where
  result : Option Nat
  result_msg : Option String
deriving DecidableEq, Repr

/-- The `QueryResult` returned by the `Table` methods. -/
structure QueryResult where
  result_table : Option Nat := none
  error_message : Option String := none
  error_code : Int := 0
deriving DecidableEq, Repr

/-- Table handle: the session's current database and the table name. -/
structure Table where
  current_database : String
  table_name : String
deriving DecidableEq, Repr

/-- Packaging of a `QueryResponse` into a `QueryResult`, as done by every
`Table` method: copy the result table; on a non-null message set the error
message and error code -1. -/
def mkQueryResult (response : QueryResponse) : QueryResult :=
  match response.result_msg with
  | some msg =>
      { result_table := response.result, error_message := some msg, error_code := -1 }
  | none => { result_table := response.result }

/-- The `CreateStatement` that `Table::CreateIndex` submits: it is
default-constructed and the populated `CreateIndexInfo` is never attached. -/
def Table.createIndexStatement (tbl : Table) (index_name : String)
    (column_names : List String) (create_index_options : CreateIndexOptions) :
    CreateStatement :=
  let create_index_info : CreateIndexInfo :=
    { schema_name := tbl.current_database, table_name := tbl.table_name,
      index_name := index_name, column_names := column_names }
  {}

/-- `Table::CreateIndex`: build the info, submit a default `CreateStatement`
through `QueryContext::QueryStatement` (abstracted as `query`), and package
the response. -/
def Table.CreateIndex (query : CreateStatement → QueryResponse) (tbl : Table)
    (index_name : String) (column_names : List String)
    (create_index_options : CreateIndexOptions) : QueryResult :=
  mkQueryResult (query (tbl.createIndexStatement index_name column_names
    create_index_options))

/-- The `DropStatement` that `Table::DropIndex` submits: it is
default-constructed and the populated `DropIndexInfo` is never attached. -/
def Table.dropIndexStatement (tbl : Table) (index_name : String) : DropStatement :=
  let drop_index_info : DropIndexInfo :=
    { schema_name := tbl.current_database, table_name := tbl.table_name,
      index_name := index_name }
  {}

/-- `Table::DropIndex`: build the info, submit a default `DropStatement`
through `QueryContext::QueryStatement` (abstracted as `query`), and package
the response. -/
def Table.DropIndex (query : DropStatement → QueryResponse) (tbl : Table)
    (index_name : String) : QueryResult :=
  mkQueryResult (query (tbl.dropIndexStatement index_name))

/-- C10: the index info never reaches the submitted statement, so the
statement and the query result are independent of the index name, column
names and options. -/
theorem createIndex_ignores_index_args (query : CreateStatement → QueryResponse)
    (dquery : DropStatement → QueryResponse) (tbl : Table) (n1 n2 : String)
    (c1 c2 : List String) (o1 o2 : CreateIndexOptions) :
    tbl.createIndexStatement n1 c1 o1 = tbl.createIndexStatement n2 c2 o2 ∧
    (tbl.createIndexStatement n1 c1 o1).create_info = none ∧
    Table.CreateIndex query tbl n1 c1 o1 = Table.CreateIndex query tbl n2 c2 o2 ∧
    tbl.dropIndexStatement n1 = tbl.dropIndexStatement n2 ∧
    (tbl.dropIndexStatement n1).drop_info = none ∧
    Table.DropIndex dquery tbl n1 = Table.DropIndex dquery tbl n2 :=
  ⟨rfl, rfl, rfl, rfl, rfl, rfl⟩

/-! ## SeekDoc monotonicity (C4) and SeekPosition enumeration (C5) -/

/-- Well-formed posting list: strictly increasing document ids, all below the
invalid document-id sentinel. -/
def EntriesWF (es : List PostingEntry) : Prop :=
  List.Chain' (· < ·) (es.map PostingEntry.doc_id) ∧
    ∀ e ∈ es, e.doc_id < INVALID_ROWID

/-- Iterator invariant: the not yet visited entries have strictly increasing
document ids below the sentinel, and an exhausted iterator has none left. -/
def ItWF (it : PostingIterator) : Prop :=
  List.Chain' (· < ·) (it.upcoming.map PostingEntry.doc_id) ∧
    (∀ e ∈ it.upcoming, e.doc_id < INVALID_ROWID) ∧
    (it.exhausted = true → it.upcoming = [])

lemma seekDoc_step (it : PostingIterator) (t : Nat) (h : ItWF it) :
    ItWF (it.SeekDoc t).1 ∧ (it.SeekDoc t).2 ≤ INVALID_ROWID ∧
    (∀ e ∈ (it.SeekDoc t).1.upcoming, (it.SeekDoc t).2 < e.doc_id) ∧
    (∀ e ∈ (it.SeekDoc t).1.upcoming, e ∈ it.upcoming) ∧
    ((it.SeekDoc t).2 = INVALID_ROWID ∨
      ∃ e, e ∈ it.upcoming ∧ (it.SeekDoc t).2 = e.doc_id) := by
  obtain ⟨hchain, hbound, hexh⟩ := h
  by_cases hex : it.exhausted = true
  · have hup : it.upcoming = [] := hexh hex
    simp only [PostingIterator.SeekDoc, hex, if_true]
    exact ⟨⟨hchain, hbound, hexh⟩, le_refl _, by simp [hup], fun e he => he, by simp⟩
  · have hex' : it.exhausted = false := by revert hex; cases it.exhausted <;> simp
    rcases hdw : it.upcoming.dropWhile (fun e => decide (e.doc_id < t)) with _ | ⟨e, rest⟩
    · simp only [PostingIterator.SeekDoc, hex', Bool.false_eq_true, if_false, hdw]
      refine ⟨⟨List.chain'_nil, ?_, ?_⟩, le_refl _, ?_, ?_, by simp⟩ <;> simp
    · have hsub : List.Sublist (e :: rest) it.upcoming :=
        hdw ▸ List.dropWhile_sublist _
      have hchain2 : List.Chain' (· < ·) ((e :: rest).map PostingEntry.doc_id) :=
        hchain.sublist (hsub.map _)
      have hpw := List.chain'_iff_pairwise.mp hchain2
      have hlt : ∀ r ∈ rest, e.doc_id < r.doc_id := by
        have hp : (∀ a ∈ rest, e.doc_id < a.doc_id) ∧
            List.Pairwise (· < ·) (rest.map PostingEntry.doc_id) := by simpa using hpw
        exact hp.1
      have hemem : e ∈ it.upcoming := hsub.subset (by simp)
      have hrmem : ∀ r ∈ rest, r ∈ it.upcoming :=
        fun r hr => hsub.subset (List.mem_cons_of_mem _ hr)
      simp only [PostingIterator.SeekDoc, hex', Bool.false_eq_true, if_false, hdw]
      refine ⟨⟨?_, ?_, ?_⟩, ?_, ?_, ?_, ?_⟩
      · exact (List.chain'_cons'.mp (by simpa using hchain2)).2
      · exact fun x hx => hbound x (hrmem x hx)
      · exact fun hcontr => absurd hcontr (by simp [hex'])
      · exact le_of_lt (hbound e hemem)
      · exact hlt
      · exact hrmem
      · exact Or.inr ⟨e, hemem, rfl⟩

lemma runSeeks_lb : ∀ (ts : List Nat) (it : PostingIterator) (d : Nat),
    ItWF it → (∀ e ∈ it.upcoming, d ≤ e.doc_id) → d ≤ INVALID_ROWID →
    ∀ x ∈ runSeeks it ts, d ≤ x := by
  intro ts
  induction ts with
  | nil => intro it d _ _ _ x hx; simp [runSeeks] at hx
  | cons t ts ih =>
      intro it d hwf hlb hdle x hx
      obtain ⟨hwf', hle', hlt', hsub', hres⟩ := seekDoc_step it t hwf
      rw [runSeeks] at hx
      rcases List.mem_cons.mp hx with rfl | hx'
      · rcases hres with hres | ⟨e, hmem, hres⟩
        · rw [hres]; exact hdle
        · rw [hres]; exact hlb e hmem
      · exact ih (it.SeekDoc t).1 d hwf' (fun e he => hlb e (hsub' e he)) hdle x hx'

lemma runSeeks_le : ∀ (ts : List Nat) (it : PostingIterator), ItWF it →
    ∀ x ∈ runSeeks it ts, x ≤ INVALID_ROWID := by
  intro ts
  induction ts with
  | nil => intro it _ x hx; simp [runSeeks] at hx
  | cons t ts ih =>
      intro it hwf x hx
      obtain ⟨hwf', hle', -, -, -⟩ := seekDoc_step it t hwf
      rw [runSeeks] at hx
      rcases List.mem_cons.mp hx with rfl | hx'
      · exact hle'
      · exact ih _ hwf' x hx'

lemma runSeeks_chain : ∀ (ts : List Nat) (it : PostingIterator), ItWF it →
    List.Chain' (· ≤ ·) (runSeeks it ts) := by
  intro ts
  induction ts with
  | nil => intro it _; simp [runSeeks]
  | cons t ts ih =>
      intro it hwf
      obtain ⟨hwf', hle', hlt', hsub', -⟩ := seekDoc_step it t hwf
      rw [runSeeks, List.chain'_cons']
      refine ⟨?_, ih _ hwf'⟩
      intro y hy
      exact runSeeks_lb ts _ _ hwf' (fun e he => le_of_lt (hlt' e he)) hle' y
        (List.mem_of_mem_head? hy)

/-- C4: over a well-formed posting list, a sequence of `SeekDoc` calls with
non-decreasing targets returns non-decreasing document ids, and once a call
returns the invalid sentinel every later call in the sequence also returns
the invalid sentinel. -/
theorem seekDoc_monotone (es : List PostingEntry) (ts : List Nat)
    (hwf : EntriesWF es) (hts : List.Chain' (· ≤ ·) ts) :
    List.Chain' (· ≤ ·) (runSeeks (PostingIterator.Init es) ts) ∧
    ∀ i j : Nat, i < j → j < (runSeeks (PostingIterator.Init es) ts).length →
      (runSeeks (PostingIterator.Init es) ts).get? i = some INVALID_ROWID →
      (runSeeks (PostingIterator.Init es) ts).get? j = some INVALID_ROWID := by
  have hinit : ItWF (PostingIterator.Init es) :=
    ⟨hwf.1, hwf.2, fun hcontr => absurd hcontr (by simp [PostingIterator.Init])⟩
  have hchain := runSeeks_chain ts _ hinit
  have hle := runSeeks_le ts _ hinit
  refine ⟨hchain, ?_⟩
  intro i j hij hjlen hi
  obtain ⟨hilen, hgi⟩ := List.get?_eq_some.mp hi
  have hmono := List.pairwise_iff_get.mp (List.chain'_iff_pairwise.mp hchain)
    ⟨i, hilen⟩ ⟨j, hjlen⟩ hij
  have hub := hle _ (List.get_mem _ j hjlen)
  have hgj : (runSeeks (PostingIterator.Init es) ts).get ⟨j, hjlen⟩ = INVALID_ROWID :=
    le_antisymm hub (hgi ▸ hmono)
  exact List.get?_eq_some.mpr ⟨hjlen, hgj⟩

/-- Concrete posting list for the C4 witness. -/
def demoEntries : List PostingEntry := [⟨1, 2, [0, 1]⟩, ⟨3, 1, [2]⟩]

/-- Witness for C4 with non-decreasing targets [0, 2, 4, 5]. -/
theorem seekDoc_monotone_witness :
    List.Chain' (· ≤ ·) (runSeeks (PostingIterator.Init demoEntries) [0, 2, 4, 5]) :=
  (seekDoc_monotone demoEntries [0, 2, 4, 5]
    ⟨by norm_num [demoEntries, List.chain'_cons, List.chain'_singleton], by decide⟩
    (by norm_num [List.chain'_cons, List.chain'_singleton])).1

lemma seekPositionRun_sorted : ∀ (ps : List Nat) (it : PostingIterator) (f : Nat),
    it.cur_positions = ps →
    List.Chain' (· < ·) ps →
    (∀ p ∈ ps, p < INVALID_POSITION) →
    (∀ p ∈ ps, f ≤ p) →
    seekPositionRun it f (ps.length + 1) = ps ++ [INVALID_POSITION] := by
  intro ps
  induction ps with
  | nil =>
      intro it f hcur _ _ _
      simp [seekPositionRun, PostingIterator.SeekPosition, hcur]
  | cons p rest ih =>
      intro it f hcur hchain hbound hge
      have hp_ge : f ≤ p := hge p (by simp)
      have hdw : it.cur_positions.dropWhile (fun q => decide (q < f)) = p :: rest := by
        rw [hcur, List.dropWhile_cons]
        simp [Nat.not_lt.mpr hp_ge]
      have hs : it.SeekPosition f = ({ it with cur_positions := rest }, p) := by
        rw [PostingIterator.SeekPosition, hdw]
      have hpne : p ≠ INVALID_POSITION := Nat.ne_of_lt (hbound p (by simp))
      simp only [List.length_cons, seekPositionRun, hs, hpne, if_false, List.cons_append]
      congr 1
      refine ih _ (p + 1) rfl hchain.tail ?_ ?_
      · intro q hq; exact hbound q (List.mem_cons_of_mem _ hq)
      · intro q hq
        have := (List.pairwise_cons.mp (List.chain'_iff_pairwise.mp hchain)).1 q hq
        omega

/-- C5: for an iterator positioned on a document whose recorded positions are
strictly increasing and below the sentinel, repeatedly calling `SeekPosition`
with `from_position` = previous result + 1 (starting at 0) enumerates every
recorded position of the document exactly once and then terminates with the
invalid position sentinel. -/
theorem seekPosition_enumerates (e : PostingEntry) (it : PostingIterator)
    (hcur : it.cur_positions = e.positions)
    (hchain : List.Chain' (· < ·) e.positions)
    (hbound : ∀ p ∈ e.positions, p < INVALID_POSITION) :
    seekPositionRun it 0 (e.positions.length + 1) = e.positions ++ [INVALID_POSITION] :=
  seekPositionRun_sorted e.positions it 0 hcur hchain hbound (fun p _ => Nat.zero_le p)

/-- Witness for C5 on the positions [1, 3, 4]. -/
theorem seekPosition_enumerates_witness :
    seekPositionRun (PostingIterator.mk [] [1, 3, 4] 3 false) 0 4 =
      [1, 3, 4, INVALID_POSITION] :=
  seekPosition_enumerates ⟨0, 3, [1, 3, 4]⟩ (PostingIterator.mk [] [1, 3, 4] 3 false)
    rfl (by norm_num [List.chain'_cons, List.chain'_singleton]) (by decide)
